import Mathlib

/-!
Verification development for the Eastmoney analyst-report pipeline
(listing fetch, PDF download, SQLite-style report store, Feishu approval
parsing, and PDF retention resolution).  Python strings are embedded as
`List Char`; each definition mirrors one Python function of the source.
Unicode-only aspects of Python string predicates (`str.isdigit`,
`str.lower`) are modelled on their ASCII behaviour, which is all the
pipeline's token grammar exercises.
-/

abbrev Str := List Char

/-- Model of Python `str.strip()`: drop whitespace from both ends. -/
def pyStrip (s : Str) : Str :=
  ((s.dropWhile Char.isWhitespace).reverse.dropWhile Char.isWhitespace).reverse

/-- Model of Python `str.lower()` (ASCII case folding). -/
def pyLower (s : Str) : Str := s.map Char.toLower

/-- Model of Python `str.replace(old, new)` for a single-character pattern
and single-character replacement, as in `selection_text.replace("，", ",")`. -/
def charReplace (old new : Char) (s : Str) : Str :=
  s.map (fun c => if c = old then new else c)

/-- Model of Python `str.split(sep)` for a one-character separator.
`split` of the empty string yields one empty token, as in Python. -/
def pySplit (sep : Char) : Str → List Str
  | [] => [[]]
  | c :: rest =>
    match pySplit sep rest with
    | [] => [[]]
    | t :: ts => if c = sep then [] :: t :: ts else (c :: t) :: ts

/-- Model of Python `str.isdigit()` restricted to ASCII digits:
nonempty and every character a digit. -/
def pyIsDigit (s : Str) : Bool := !s.isEmpty && s.all Char.isDigit

/-- Numeric value of a digit string, as Python `int` reads it. -/
def digitsToNat (s : Str) : Nat :=
  s.foldl (fun acc c => acc * 10 + (c.toNat - '0'.toNat)) 0

/-- Fuel-driven worker for `pyReplace`; fuel at least the length of the
input makes the fuel-exhausted branch unreachable. -/
def pyReplaceFuel (pat rep : Str) : Nat → Str → Str
  | 0, s => s
  | _ + 1, [] => []
  | fuel + 1, c :: rest =>
    if pat ≠ [] ∧ pat.isPrefixOf (c :: rest) then
      rep ++ pyReplaceFuel pat rep fuel ((c :: rest).drop pat.length)
    else
      c :: pyReplaceFuel pat rep fuel rest

/-- Model of Python `str.replace(pat, rep)`: replace every non-overlapping
occurrence of `pat`, scanning left to right. -/
def pyReplace (pat rep s : Str) : Str := pyReplaceFuel pat rep s.length s

/-- Worker for `digitRuns`, carrying the current (reversed) run. -/
def digitRunsAux (cur : Str) : Str → List Str
  | [] => if cur = [] then [] else [cur.reverse]
  | c :: rest =>
    if c.isDigit then digitRunsAux (c :: cur) rest
    else if cur = [] then digitRunsAux [] rest
    else cur.reverse :: digitRunsAux [] rest

/-- Model of Python `re.findall(r'\d+', text)`: the maximal runs of
consecutive digits. -/
def digitRuns (s : Str) : List Str := digitRunsAux [] s

/- ## Report store (`store/eastmoney/_store_impl.py`, `EastmoneySqliteStoreImplement`) -/

/-- A `content_item` dict: `some` marks a key present in the dict,
`none` a key absent from it. -/
structure ContentItem where
  infocode : Option Str := none
  report_title : Option Str := none
  org_name : Option Str := none
  analyst : Option Str := none
  publish_date : Option Str := none
  industry : Option Str := none
  stock_code : Option Str := none
  rating : Option Str := none
  pdf_url : Option Str := none
  pdf_path : Option Str := none
  pdf_size : Option Nat := none
  pdf_pages : Option Nat := none
  attach_type : Option Str := none
  download_status : Option Str := none
  error_message : Option Str := none
deriving DecidableEq

/-- One row of the `EastmoneyReport` table. -/
structure ReportRow where
  infocode : Str
  report_title : Str
  org_name : Str
  analyst : Str
  publish_date : Str
  industry : Str
  stock_code : Str
  rating : Str
  pdf_url : Str
  pdf_path : Str
  pdf_size : Nat
  pdf_pages : Nat
  attach_type : Str
  download_status : Str
  error_message : Str
  create_time : Nat
  update_time : Nat
deriving DecidableEq

/-- `EastmoneySqliteStoreImplement.add_report`: build a fresh row from the
item, defaulting absent keys (`download_status` defaults to `"pending"`)
and setting both timestamps to now. -/
def add_report (now : Nat) (item : ContentItem) : ReportRow :=
  { infocode := item.infocode.getD []
  , report_title := item.report_title.getD []
  , org_name := item.org_name.getD []
  , analyst := item.analyst.getD []
  , publish_date := item.publish_date.getD []
  , industry := item.industry.getD []
  , stock_code := item.stock_code.getD []
  , rating := item.rating.getD []
  , pdf_url := item.pdf_url.getD []
  , pdf_path := item.pdf_path.getD []
  , pdf_size := item.pdf_size.getD 0
  , pdf_pages := item.pdf_pages.getD 0
  , attach_type := item.attach_type.getD []
  , download_status := item.download_status.getD ("pending".data)
  , error_message := item.error_message.getD []
  , create_time := now
  , update_time := now }

/-- `EastmoneySqliteStoreImplement.update_report`: merge into an existing
row only the keys present in the item (`pdf_path`, `download_status`,
`error_message`, `pdf_size`, `pdf_pages`), always bumping `update_time`. -/
def update_report (now : Nat) (item : ContentItem) (r : ReportRow) : ReportRow :=
  { r with
    update_time := now
  , pdf_path := item.pdf_path.getD r.pdf_path
  , download_status := item.download_status.getD r.download_status
  , error_message := item.error_message.getD r.error_message
  , pdf_size := item.pdf_size.getD r.pdf_size
  , pdf_pages := item.pdf_pages.getD r.pdf_pages }

/-- `EastmoneySqliteStoreImplement.store_content`: no-op on a missing or
empty `infocode`; otherwise update every row with that infocode if one
exists, else append a fresh row. -/
def store_content (now : Nat) (store : List ReportRow) (item : ContentItem) : List ReportRow :=
  match item.infocode with
  | none => store
  | some ic =>
    if ic = [] then store
    else if store.any (fun r => r.infocode = ic) then
      store.map (fun r => if r.infocode = ic then update_report now item r else r)
    else
      store ++ [add_report now item]

/- ## PDF retention resolver (`EastmoneyPdfStorage.move_to_target`) -/

/-- The literal `".pdf"` file extension. -/
def pdfExt : Str := ".pdf".data

/-- The two filesystem directories the resolver touches, each a listing of
file names. -/
structure PdfDirs where
  holding : List Str
  target : List Str
deriving DecidableEq

/-- Effect of `os.rename` into the target directory, including the
`FileExistsError` fallback (remove the stale target file, rename again):
the name ends up present exactly once. -/
def insertFile (dir : List Str) (f : Str) : List Str :=
  if f ∈ dir then dir else dir ++ [f]

/-- `filename.replace(".pdf", "")`: the infocode the source recovers from
a file name, stripping every occurrence of `".pdf"`. -/
def fileInfocode (f : Str) : Str := pyReplace pdfExt [] f

/-- One iteration of the `move_to_target` loop on one file name. -/
def moveStep (infocodes : List Str) (st : PdfDirs × List (Str × Str)) (filename : Str) :
    PdfDirs × List (Str × Str) :=
  let infocode := fileInfocode filename
  if infocode ∈ infocodes then
    ({ holding := st.1.holding.erase filename
     , target := insertFile st.1.target (infocode ++ pdfExt) }
    , st.2 ++ [(infocode, infocode ++ pdfExt)])
  else
    ({ st.1 with holding := st.1.holding.erase filename }, st.2)

/-- `EastmoneyPdfStorage.move_to_target`: list the `.pdf` files of the
holding directory, move the selected ones into the target directory
(overwriting a pre-existing file of the same name) and delete the rest.
Returns the new directory states and the infocode-to-target-path pairs. -/
def move_to_target (infocodes : List Str) (dirs : PdfDirs) : PdfDirs × List (Str × Str) :=
  (dirs.holding.filter (fun f => pdfExt.isSuffixOf f)).foldl (moveStep infocodes) (dirs, [])

/- ## Listing client (`media_platform/eastmoney/client.py`) -/

/-- The ways `_parse_jsonp_response` fails: no opening brace, no matching
closing brace, or `json.loads` rejecting the extracted substring.  All
three raise `JSONPParseError` in the source. -/
inductive JsonpError where
  | noStart
  | noEnd
  | decodeFailed
deriving DecidableEq

/-- The scanning loop of `_parse_jsonp_response`: starting at the first
brace with depth 0, increment on each opening brace, decrement on each
closing brace, and return the consumed characters once the depth returns
to zero; `none` when the input ends first. -/
def scanToClose (depth : Int) : Str → Option Str
  | [] => none
  | c :: rest =>
    if c = '{' then (scanToClose (depth + 1) rest).map (fun sub => c :: sub)
    else if c = '}' then
      if depth - 1 = 0 then some [c]
      else (scanToClose (depth - 1) rest).map (fun sub => c :: sub)
    else (scanToClose depth rest).map (fun sub => c :: sub)

/-- `response_text.find` of the opening brace: the tail of the input from
its first opening brace, or `none` when no opening brace occurs. -/
def findOpenBrace (s : Str) : Option Str :=
  if '{' ∈ s then some (s.dropWhile (fun c => c ≠ '{')) else none

/-- `EastmoneyClient._parse_jsonp_response`, parameterized by the JSON
decoder `loads` (a collaborator): locate the first opening brace, extract
the balanced-brace substring, decode it; each failure is a `JsonpError`. -/
def parse_jsonp_response {α : Type} (loads : Str → Option α) (s : Str) : Except JsonpError α :=
  match findOpenBrace s with
  | none => .error .noStart
  | some tail =>
    match scanToClose 0 tail with
    | none => .error .noEnd
    | some sub =>
      match loads sub with
      | some v => .ok v
      | none => .error .decodeFailed

/-- Net brace balance of a string: opening braces minus closing braces. -/
def braceBal (l : Str) : Int := (l.count '{' : Int) - (l.count '}' : Int)

/-- Declarative description of the substring the spec asks for: starts at
an opening brace, has net balance zero, and every shorter nonempty prefix
is still unbalanced (so it ends at the matching top-level closing brace). -/
def BalancedExtract (sub : Str) : Prop :=
  sub.head? = some '{' ∧ braceBal sub = 0 ∧
    ∀ p ∈ sub.inits, p ≠ [] → p ≠ sub → 0 < braceBal p

instance (sub : Str) : Decidable (BalancedExtract sub) := by
  unfold BalancedExtract; infer_instance

/-- `config.PDF_BASE_URL`. -/
def PDF_BASE_URL : Str := "https://pdf.dfcfw.com/pdf".data

/-- `EastmoneyClient.get_pdf_url`: the deterministic download URL template. -/
def get_pdf_url (infocode : Str) : Str :=
  PDF_BASE_URL ++ "/H3_".data ++ infocode ++ "_1.pdf".data

/-- `config.MAX_RETRIES`. -/
def MAX_RETRIES : Nat := 3

/-- Outcome of one HTTP GET of the PDF URL. -/
inductive HttpOutcome where
  | success (body : List Nat)
  | httpStatus (code : Nat)
  | requestFailed (msg : Str)
deriving DecidableEq

/-- One attempt of `EastmoneyClient.download_pdf` (the body inside the
retry decorator): a 2xx body is returned, a 404 status returns `none`
(absent) without raising, any other failure raises. -/
def download_pdf_once (o : HttpOutcome) : Except Str (Option (List Nat)) :=
  match o with
  | .success body => .ok (some body)
  | .httpStatus code =>
      if code = 404 then .ok none else .error ("HTTP status error".data)
  | .requestFailed msg => .error msg

/-- The tenacity `retry(stop=stop_after_attempt(MAX_RETRIES))` wrapper:
run the attempt numbered `attempt`; a normal return ends the call, an
exception is retried while attempts remain.  Returns the result together
with the number of attempts performed. -/
def retryCall (outcomes : Nat → HttpOutcome) : Nat → Nat → Except Str (Option (List Nat)) × Nat
  | fuel, attempt =>
    match download_pdf_once (outcomes attempt) with
    | .ok v => (.ok v, attempt + 1)
    | .error m =>
      match fuel with
      | 0 => (.error m, attempt + 1)
      | fuel + 1 => retryCall outcomes fuel (attempt + 1)

/-- `EastmoneyClient.download_pdf` with its retry policy, over the given
sequence of per-attempt outcomes. -/
def download_pdf (outcomes : Nat → HttpOutcome) : Except Str (Option (List Nat)) × Nat :=
  retryCall outcomes (MAX_RETRIES - 1) 0

/- ## Crawler core (`media_platform/eastmoney/core.py`) -/

/-- One raw record of the listing API as `_process_report` reads it;
field defaults are the `dict.get` defaults of the source. -/
structure RawReport where
  infoCode : Str
  title : Str := []
  orgName : Str := []
  researcher : Str := []
  publishDate : Str := []
  indvInduName : Str := []
  stockCode : Str := []
  emRatingName : Str := []
  attachSize : Nat := 0
  attachPages : Nat := 0
  attachType : Str := []
deriving DecidableEq

/-- `config.PDF_SAVE_DIR`. -/
def PDF_SAVE_DIR : Str := "./data/eastmoney/pdf".data

/-- `EastmoneyPdfStorage.store_pdf`: empty content or infocode saves
nothing and yields the empty path; otherwise the holding-directory path. -/
def store_pdf (infocode : Str) (content : List Nat) (ext : Str) : Str :=
  if content = [] ∨ infocode = [] then [] else PDF_SAVE_DIR ++ "/".data ++ infocode ++ ext

/-- The `db_item` dict `_process_report` always assembles from the raw
record before branching on the attachment type. -/
def base_db_item (rd : RawReport) : ContentItem :=
  { infocode := some rd.infoCode
  , report_title := some rd.title
  , org_name := some rd.orgName
  , analyst := some rd.researcher
  , publish_date := some rd.publishDate
  , industry := some rd.indvInduName
  , stock_code := some rd.stockCode
  , rating := some rd.emRatingName
  , pdf_url := some (get_pdf_url rd.infoCode)
  , pdf_size := some rd.attachSize
  , pdf_pages := some rd.attachPages
  , attach_type := some rd.attachType }

/-- `EastmoneyCrawler._process_report` given the download outcome `dl`
(the value or exception of `download_pdf`): the item finally written to
the store (or `none` when the record has no infocode), together with
whether a PDF download was attempted. -/
def process_report (rd : RawReport) (dl : Except Str (Option (List Nat))) :
    Option ContentItem × Bool :=
  if rd.infoCode = [] then (none, false)
  else if rd.attachType ≠ "0".data then
    (some { base_db_item rd with
            download_status := some ("no_pdf".data)
          , error_message := some ("No PDF attachment".data) }, false)
  else
    match dl with
    | .ok pdfContent =>
      if pdfContent.getD [] ≠ [] then
        (some { base_db_item rd with
                pdf_path := some (store_pdf rd.infoCode (pdfContent.getD []) pdfExt)
              , download_status := some ("completed".data) }, true)
      else
        (some { base_db_item rd with
                download_status := some ("failed".data)
              , error_message := some ("PDF download returned None".data) }, true)
    | .error msg =>
      (some { base_db_item rd with
              download_status := some ("failed".data)
            , error_message := some msg }, true)

/-- `_process_report` followed by `update_eastmoney_report` (which routes
to `store_content`): the store after processing one raw record, and
whether a download was attempted. -/
def process_and_store (now : Nat) (store : List ReportRow) (rd : RawReport)
    (dl : Except Str (Option (List Nat))) : List ReportRow × Bool :=
  match process_report rd dl with
  | (none, b) => (store, b)
  | (some item, b) => (store_content now store item, b)

/-- `config.PAGE_SIZE`. -/
def PAGE_SIZE : Nat := 50

/-- The crawl loop's report-count bound `max_notes = PAGE_SIZE * 5`. -/
def maxNotes : Nat := PAGE_SIZE * 5

/-- The paging loop of `EastmoneyCrawler.start` over the per-page fetch
outcomes `pages`: while fewer than `maxNotes` reports are collected,
fetch the next page; an error or an empty page ends the loop.  Returns
the collected reports and the number of pages fetched. -/
def crawlPagesAux (pages : Nat → Except Unit (List RawReport)) (pageNo : Nat)
    (acc : List RawReport) (fetched : Nat) : List RawReport × Nat :=
  if h : acc.length < maxNotes then
    match pages pageNo with
    | .error _ => (acc, fetched + 1)
    | .ok [] => (acc, fetched + 1)
    | .ok (r :: rs) => crawlPagesAux pages (pageNo + 1) (acc ++ r :: rs) (fetched + 1)
  else (acc, fetched)
termination_by maxNotes - acc.length
decreasing_by simp [List.length_append]; omega

/-- `EastmoneyCrawler.start`'s paging loop from page 1 with nothing
collected. -/
def crawl_start (pages : Nat → Except Unit (List RawReport)) : List RawReport × Nat :=
  crawlPagesAux pages 1 [] 0

/- ## Feishu bot (`feishu/eastmoney_bot.py`) -/

/-- Index tokens the `process_user_selection` loop keeps: strip the part,
require all digits, subtract one, keep only in-range (0-based) indices.
Python's `int(part) - 1` is integer arithmetic, modelled over `Int`. -/
def botIndices (parts : List Str) (n : Nat) : List Nat :=
  parts.foldr
    (fun part acc =>
      let part6 := pyStrip part
      if pyIsDigit part6 then
        let idx : Int := (digitsToNat part6 : Int) - 1
        if 0 ≤ idx ∧ idx < (n : Int) then idx.toNat :: acc else acc
      else acc)
    []

/-- `EastmoneyFeishuBot.process_user_selection`: strip and lowercase the
reply; the literal keep-all, delete-all and cancel commands short-circuit;
otherwise normalize full-width commas, split on commas and map each kept
1-based index to its infocode. -/
def process_user_selection (selection_text : Str) (all_infocodes : List Str) : List Str :=
  let t := pyLower (pyStrip selection_text)
  if t = "全部保留".data ∨ t = "all".data then all_infocodes
  else if t = "全部删除".data ∨ t = "all delete".data ∨ t = "delete all".data then []
  else if t = "取消".data ∨ t = "cancel".data then []
  else
    let parts := pySplit ',' (charReplace '，' ',' t)
    (botIndices parts all_infocodes.length).map (fun i => all_infocodes.getD i [])

/-- `feishu/eastmoney_bot.py::send_and_notify_reports`: a failed send
returns `none` (no selection will arrive); a successful send returns the
demo-mode default selection, the empty list. -/
def send_and_notify_reports (sendOk : Bool) : Option (List Str) :=
  if sendOk then some ([] : List Str) else none

/-- The post-crawl resolution logic of `main_eastmoney.py::manual_crawl`
(lines 58-67): only when new reports exist and Feishu sending is enabled
is the bot consulted, and only a non-`none` selection with
`DELETE_UNSELECTED` set triggers `move_selected_pdfs`. -/
def manual_crawl_resolution (sendListToFeishu deleteUnselected : Bool)
    (newReports : List Str) (sendOk : Bool) (dirs : PdfDirs) : PdfDirs :=
  if newReports ≠ [] ∧ sendListToFeishu then
    match send_and_notify_reports sendOk with
    | some sel => if deleteUnselected then (move_to_target sel dirs).1 else dirs
    | none => dirs
  else dirs

/- ## Timed listener (`timed_listener.py`) -/

/-- Result of `TimedFeishuListener.parse_user_selection`: the keep-all
marker, the delete-all marker, or a list of parsed numbers. -/
inductive UserSelection where
  | selAll
  | selDeleteAll
  | selNums (ns : List Nat)
deriving DecidableEq

/-- `TimedFeishuListener.parse_user_selection`: strip and lowercase; the
keep-all tokens are `"全部保留"`, `"all"`, `"全部"`; the delete-all tokens
are `"全部删除"`, `"delete"`, `"delete all"`; otherwise every digit run of
the text yields a number, and a text without digits yields no selection. -/
def parse_user_selection (text : Str) : Option UserSelection :=
  let t := pyLower (pyStrip text)
  if t = "全部保留".data ∨ t = "all".data ∨ t = "全部".data then some .selAll
  else if t = "全部删除".data ∨ t = "delete".data ∨ t = "delete all".data then some .selDeleteAll
  else
    let numbers := digitRuns t
    if numbers ≠ [] then some (.selNums (numbers.map digitsToNat)) else none

/-- The mapping from a parsed selection to infocodes inside
`listen_and_process` (`process_and_notify`): keep-all takes every recent
report, delete-all none, and indices are filtered to `[1, n]` and mapped
1-based onto the report list. -/
def map_listener_selection (sel : UserSelection) (reports : List Str) : List Str :=
  match sel with
  | .selAll => reports
  | .selDeleteAll => []
  | .selNums ns =>
    (ns.filter (fun idx => 1 ≤ idx ∧ idx ≤ reports.length)).map
      (fun idx => reports.getD (idx - 1) [])

/-- The timeout branch of `listen_and_process`: resolve with the empty
selection, deleting every unselected PDF. -/
def listener_timeout_resolution (dirs : PdfDirs) : PdfDirs :=
  (move_to_target [] dirs).1

/- ## Store lemmas and claims C10, C8 -/

theorem opt_getD_getD {α : Type} (x : Option α) (d : α) : x.getD (x.getD d) = x.getD d := by
  cases x <;> rfl

theorem update_add_same (now1 now2 : Nat) (item : ContentItem) :
    update_report now2 item (add_report now1 item)
      = { add_report now1 item with update_time := now2 } := by
  simp only [update_report, add_report]
  congr 1 <;> apply opt_getD_getD

/-- Claim C10: `store_content` with a missing or empty `infocode` is a
no-op: it inserts no row, updates no row, and leaves the store exactly as
it was. -/
theorem storeContent_no_infocode_noop (now : Nat) (store : List ReportRow)
    (item : ContentItem) (h : item.infocode = none ∨ item.infocode = some []) :
    store_content now store item = store := by
  rcases h with h | h <;> simp [store_content, h]

/-- Claim C10 witness at a concrete item carrying an empty infocode. -/
theorem storeContent_no_infocode_noop_witness :
    store_content 7 [] { infocode := some [] } = [] :=
  storeContent_no_infocode_noop 7 [] { infocode := some [] } (Or.inr rfl)

/-- Claim C8: on a store holding no row for the identifier, calling
`store_content` twice with the identical item leaves exactly one row for
that identifier; the first call appends a row whose `download_status`
defaults to `"pending"` when the item supplies none and whose
`update_time` is the first call's clock, and the second call merges the
same fields without duplicating the row, changing nothing but
`update_time`, which moves to the (no smaller) second clock. -/
theorem upsert_idempotent (store : List ReportRow) (item : ContentItem) (ic : Str)
    (now1 now2 : Nat) (hic : item.infocode = some ic) (hne : ic ≠ [])
    (hfresh : ∀ r ∈ store, r.infocode ≠ ic) (hmono : now1 ≤ now2) :
    store_content now1 store item = store ++ [add_report now1 item] ∧
    store_content now2 (store_content now1 store item) item
      = store ++ [{ add_report now1 item with update_time := now2 }] ∧
    (add_report now1 item).infocode = ic ∧
    (add_report now1 item).update_time = now1 ∧
    (item.download_status = none → (add_report now1 item).download_status = "pending".data) ∧
    now1 ≤ now2 ∧
    (store_content now2 (store_content now1 store item) item).countP
      (fun r => r.infocode = ic) = 1 := by
  have hicadd : (add_report now1 item).infocode = ic := by
    simp [add_report, hic]
  have hany1 : store.any (fun r => r.infocode = ic) = false := by
    simp only [List.any_eq_false, decide_eq_true_eq]
    exact hfresh
  have h1 : store_content now1 store item = store ++ [add_report now1 item] := by
    simp [store_content, hic, hne, hany1]
  have hany2 : (store ++ [add_report now1 item]).any (fun r => r.infocode = ic) = true := by
    simp only [List.any_eq_true, decide_eq_true_eq]
    exact ⟨add_report now1 item, by simp, hicadd⟩
  have hmapstore :
      store.map (fun r => if r.infocode = ic then update_report now2 item r else r) = store := by
    conv_rhs => rw [← List.map_id store]
    apply List.map_congr_left
    intro r hr
    simp [hfresh r hr]
  have h2 : store_content now2 (store_content now1 store item) item
      = store ++ [{ add_report now1 item with update_time := now2 }] := by
    rw [h1]
    simp only [store_content, hic]
    rw [if_neg (by exact hne), if_pos hany2, List.map_append, hmapstore]
    simp [hicadd, update_add_same]
  refine ⟨h1, h2, hicadd, rfl, ?_, hmono, ?_⟩
  · intro hds
    simp [add_report, hds]
  · rw [h2]
    simp only [List.countP_append]
    have : store.countP (fun r => r.infocode = ic) = 0 := by
      simp only [List.countP_eq_zero, decide_eq_true_eq]
      exact hfresh
    rw [this]
    simp [List.countP, List.countP.go, hicadd]

/-- Claim C8 witness: a concrete fresh store, item, and two clocks. -/
theorem upsert_idempotent_witness :
    store_content 1 [] { infocode := some ("X1".data) }
      = [] ++ [add_report 1 { infocode := some ("X1".data) }] ∧
    store_content 2 (store_content 1 [] { infocode := some ("X1".data) })
        { infocode := some ("X1".data) }
      = [] ++ [{ add_report 1 { infocode := some ("X1".data) } with update_time := 2 }] ∧
    (add_report 1 { infocode := some ("X1".data) }).infocode = "X1".data ∧
    (add_report 1 { infocode := some ("X1".data) }).update_time = 1 ∧
    (({ infocode := some ("X1".data) } : ContentItem).download_status = none →
      (add_report 1 { infocode := some ("X1".data) }).download_status = "pending".data) ∧
    1 ≤ 2 ∧
    (store_content 2 (store_content 1 [] { infocode := some ("X1".data) })
        { infocode := some ("X1".data) }).countP
      (fun r => r.infocode = "X1".data) = 1 :=
  upsert_idempotent [] { infocode := some ("X1".data) } ("X1".data) 1 2 rfl
    (by decide) (by intro r hr; cases hr) (by decide)

/- ## Claim C7: not-found is terminal -/

/-- Claim C7: an attachment fetch whose first attempt yields a 404-style
not-found response returns `none` (absent) after exactly one attempt, so
no retry happens; processing the report with that result stores a record
whose status is `"failed"` with a nonempty `error_message`, and that holds
for every row of the resulting store carrying the report's infocode. -/
theorem notfound_terminal (outcomes : Nat → HttpOutcome) (store : List ReportRow)
    (rd : RawReport) (now : Nat) (h404 : outcomes 0 = .httpStatus 404)
    (hattach : rd.attachType = "0".data) (hic : rd.infoCode ≠ []) :
    download_pdf outcomes = (.ok none, 1) ∧
    (process_and_store now store rd (download_pdf outcomes).1).2 = true ∧
    ∀ r ∈ (process_and_store now store rd (download_pdf outcomes).1).1,
      r.infocode = rd.infoCode →
        r.download_status = "failed".data ∧ r.error_message ≠ [] := by
  have hdl : download_pdf outcomes = (.ok none, 1) := by
    simp [download_pdf, retryCall, download_pdf_once, h404, MAX_RETRIES]
  refine ⟨hdl, ?_, ?_⟩ <;> rw [hdl]
  · simp [process_and_store, process_report, hic, hattach]
  · have hpr : process_report rd (.ok none)
        = (some { base_db_item rd with
                  download_status := some ("failed".data)
                , error_message := some ("PDF download returned None".data) }, true) := by
      simp [process_report, hic, hattach]
    intro r hr hric
    rw [process_and_store, hpr] at hr
    simp only [store_content, base_db_item] at hr
    by_cases hany : store.any (fun r0 => r0.infocode = rd.infoCode)
    · rw [if_neg (by exact hic), if_pos (by exact hany)] at hr
      obtain ⟨r0, hr0, rfl⟩ := List.mem_map.1 hr
      by_cases h0 : r0.infocode = rd.infoCode
      · rw [if_pos h0]
        constructor <;> simp [update_report]
      · rw [if_neg h0] at hric ⊢
        exact absurd hric h0
    · rw [if_neg (by exact hic), if_neg hany] at hr
      rcases List.mem_append.1 hr with hmem | hmem
      · exfalso
        have hall : ∀ x ∈ store, ¬ x.infocode = rd.infoCode := by
          simpa [List.any_eq_false] using hany
        exact hall r hmem hric
      · rcases List.mem_singleton.1 hmem with rfl
        constructor <;> simp [add_report]

/-- Claim C7 witness: a concrete 404 outcome, report and empty store. -/
theorem notfound_terminal_witness :
    download_pdf (fun _ => .httpStatus 404) = (.ok none, 1) ∧
    (process_and_store 9 [] { infoCode := "R9".data, attachType := "0".data }
      (download_pdf (fun _ => .httpStatus 404)).1).2 = true ∧
    ∀ r ∈ (process_and_store 9 [] { infoCode := "R9".data, attachType := "0".data }
      (download_pdf (fun _ => .httpStatus 404)).1).1,
      r.infocode = ({ infoCode := "R9".data, attachType := "0".data } : RawReport).infoCode →
        r.download_status = "failed".data ∧ r.error_message ≠ [] :=
  notfound_terminal (fun _ => .httpStatus 404) [] { infoCode := "R9".data, attachType := "0".data }
    9 rfl rfl (by decide)

/- ## Claim C9: crawl loop termination and page bound -/

theorem crawl_bound_aux (pages : Nat → Except Unit (List RawReport)) :
    ∀ (n pageNo : Nat) (acc : List RawReport) (fetched : Nat),
      maxNotes - acc.length ≤ n →
      (crawlPagesAux pages pageNo acc fetched).2 ≤ fetched + (maxNotes - acc.length) := by
  intro n
  induction n with
  | zero =>
    intro pageNo acc fetched hle
    rw [crawlPagesAux]
    have hnot : ¬ acc.length < maxNotes := by omega
    simp [hnot]
  | succ n ih =>
    intro pageNo acc fetched hle
    rw [crawlPagesAux]
    by_cases h : acc.length < maxNotes
    · rw [dif_pos h]
      cases hp : pages pageNo with
      | error e => simp; omega
      | ok rs =>
        cases rs with
        | nil => simp; omega
        | cons r rs2 =>
          have hstep := ih (pageNo + 1) (acc ++ r :: rs2) (fetched + 1)
            (by simp [List.length_append]; omega)
          simp only [List.length_append, List.length_cons] at hstep
          simp only []
          omega
    · rw [dif_neg h]
      omega

/-- Claim C9: the paging loop of `start` always terminates, the number of
pages fetched in one cycle never exceeds the constant
`maxNotes = PAGE_SIZE * 5` whatever the upstream pages contain, and a page
that returns no records ends the loop at once (that fetch is the last). -/
theorem crawl_terminates_bounded (pages : Nat → Except Unit (List RawReport)) :
    (crawl_start pages).2 ≤ maxNotes ∧
    (∀ (k : Nat) (acc : List RawReport) (fetched : Nat),
      pages k = .ok [] → acc.length < maxNotes →
      crawlPagesAux pages k acc fetched = (acc, fetched + 1)) := by
  constructor
  · have := crawl_bound_aux pages maxNotes 1 [] 0 (by simp)
    simpa [crawl_start] using this
  · intro k acc fetched hemp hlt
    rw [crawlPagesAux]
    rw [dif_pos hlt, hemp]

/-- Claim C9 witness: an upstream whose first page is empty. -/
theorem crawl_terminates_bounded_witness :
    (crawl_start (fun _ => .ok [])).2 ≤ maxNotes ∧
    crawlPagesAux (fun _ => .ok []) 1 [] 0 = ([], 0 + 1) :=
  ⟨(crawl_terminates_bounded (fun _ => .ok [])).1,
    (crawl_terminates_bounded (fun _ => .ok [])).2 1 [] 0 rfl (by decide)⟩

/- ## Retention resolver lemmas and claim C1 -/

theorem moveStep_holding (sel : List Str) (st : PdfDirs × List (Str × Str)) (f : Str) :
    ((moveStep sel st f).1).holding = st.1.holding.erase f := by
  rw [moveStep]
  by_cases h : fileInfocode f ∈ sel <;> simp [h]

theorem moveStep_target (sel : List Str) (st : PdfDirs × List (Str × Str)) (f : Str) :
    ((moveStep sel st f).1).target =
      if fileInfocode f ∈ sel then insertFile st.1.target (fileInfocode f ++ pdfExt)
      else st.1.target := by
  rw [moveStep]
  by_cases h : fileInfocode f ∈ sel <;> simp [h]

theorem move_fold_holding (sel : List Str) :
    ∀ (files : List Str) (st : PdfDirs × List (Str × Str)),
      ((files.foldl (moveStep sel) st).1).holding
        = files.foldl (fun h f => h.erase f) st.1.holding := by
  intro files
  induction files with
  | nil => intro st; rfl
  | cons f fs ih =>
    intro st
    rw [List.foldl_cons, List.foldl_cons, ih, moveStep_holding]

theorem move_fold_target (sel : List Str) :
    ∀ (files : List Str) (st : PdfDirs × List (Str × Str)),
      ((files.foldl (moveStep sel) st).1).target
        = files.foldl
            (fun t f =>
              if fileInfocode f ∈ sel then insertFile t (fileInfocode f ++ pdfExt) else t)
            st.1.target := by
  intro files
  induction files with
  | nil => intro st; rfl
  | cons f fs ih =>
    intro st
    rw [List.foldl_cons, List.foldl_cons, ih, moveStep_target]

theorem erase_fold_subset : ∀ (fs l : List Str), fs.foldl (fun h f => h.erase f) l ⊆ l := by
  intro fs
  induction fs with
  | nil => intro l; exact fun x hx => hx
  | cons f fs ih =>
    intro l x hx
    rw [List.foldl_cons] at hx
    exact List.erase_subset f l (ih (l.erase f) hx)

theorem erase_fold_not_mem : ∀ (fs l : List Str), l.Nodup →
    ∀ a ∈ fs, a ∉ fs.foldl (fun h f => h.erase f) l := by
  intro fs
  induction fs with
  | nil => intro l _ a ha; cases ha
  | cons f fs ih =>
    intro l hnd a ha
    rw [List.foldl_cons]
    rcases List.mem_cons.1 ha with rfl | ha2
    · intro hcontra
      have hsub := erase_fold_subset fs (l.erase a) hcontra
      rw [List.Nodup.mem_erase_iff hnd] at hsub
      exact hsub.1 rfl
    · exact ih (l.erase f) (hnd.erase f) a ha2

theorem mem_insertFile (t : List Str) (y x : Str) :
    x ∈ insertFile t y ↔ x ∈ t ∨ x = y := by
  rw [insertFile]
  split
  · rename_i hy
    constructor
    · exact Or.inl
    · rintro (hx | rfl)
      · exact hx
      · exact hy
  · simp

theorem target_fold_mem (sel : List Str) (x : Str) :
    ∀ (files : List Str) (t : List Str),
      (x ∈ files.foldl
          (fun t2 f =>
            if fileInfocode f ∈ sel then insertFile t2 (fileInfocode f ++ pdfExt) else t2)
          t)
        ↔ (x ∈ t ∨ ∃ f ∈ files, fileInfocode f ∈ sel ∧ x = fileInfocode f ++ pdfExt) := by
  intro files
  induction files with
  | nil => intro t; simp
  | cons f fs ih =>
    intro t
    rw [List.foldl_cons, ih]
    by_cases h : fileInfocode f ∈ sel
    · rw [if_pos h, mem_insertFile]
      constructor
      · rintro ((hx | rfl) | ⟨g, hg, hgs, rfl⟩)
        · exact Or.inl hx
        · exact Or.inr ⟨f, List.mem_cons_self f fs, h, rfl⟩
        · exact Or.inr ⟨g, List.mem_cons_of_mem f hg, hgs, rfl⟩
      · rintro (hx | ⟨g, hg, hgs, rfl⟩)
        · exact Or.inl (Or.inl hx)
        · rcases List.mem_cons.1 hg with rfl | hg2
          · exact Or.inl (Or.inr rfl)
          · exact Or.inr ⟨g, hg2, hgs, rfl⟩
    · rw [if_neg h]
      constructor
      · rintro (hx | ⟨g, hg, hgs, rfl⟩)
        · exact Or.inl hx
        · exact Or.inr ⟨g, List.mem_cons_of_mem f hg, hgs, rfl⟩
      · rintro (hx | ⟨g, hg, hgs, rfl⟩)
        · exact Or.inl hx
        · rcases List.mem_cons.1 hg with rfl | hg2
          · exact absurd hgs h
          · exact Or.inr ⟨g, hg2, hgs, rfl⟩

/-- Claim C1 (amended): for a file `id ++ ".pdf"` of the holding
directory whose identifier the code's `".pdf"`-stripping recovers exactly
(`fileInfocode (id ++ ".pdf") = id`, which holds whenever `id` does not
itself contain `".pdf"`), `move_to_target` leaves the file in exactly one
place: it is never still in the holding directory; a selected identifier's
file is in the target directory; an unselected identifier's file is in the
target directory only if a file of that name was already there before. -/
theorem retention_resolver_totality (sel : List Str) (dirs : PdfDirs) (id : Str)
    (hnd : dirs.holding.Nodup)
    (hmem : (id ++ pdfExt) ∈ dirs.holding)
    (hrep : fileInfocode (id ++ pdfExt) = id) :
    ((id ++ pdfExt) ∉ (move_to_target sel dirs).1.holding) ∧
    (id ∈ sel → (id ++ pdfExt) ∈ (move_to_target sel dirs).1.target) ∧
    (id ∉ sel → ((id ++ pdfExt) ∈ (move_to_target sel dirs).1.target
      ↔ (id ++ pdfExt) ∈ dirs.target)) := by
  have hsuf : pdfExt.isSuffixOf (id ++ pdfExt) = true := by
    rw [List.isSuffixOf_iff_suffix]
    exact List.suffix_append id pdfExt
  have hfile : (id ++ pdfExt) ∈ dirs.holding.filter (fun f => pdfExt.isSuffixOf f) :=
    List.mem_filter.2 ⟨hmem, hsuf⟩
  have htgt : (move_to_target sel dirs).1.target
      = (dirs.holding.filter (fun f => pdfExt.isSuffixOf f)).foldl
          (fun t f =>
            if fileInfocode f ∈ sel then insertFile t (fileInfocode f ++ pdfExt) else t)
          dirs.target := by
    rw [move_to_target, move_fold_target]
  refine ⟨?_, ?_, ?_⟩
  · rw [move_to_target, move_fold_holding]
    exact erase_fold_not_mem _ dirs.holding hnd _ hfile
  · intro hid
    rw [htgt, target_fold_mem]
    exact Or.inr ⟨id ++ pdfExt, hfile, by rw [hrep]; exact hid, by rw [hrep]⟩
  · intro hid
    rw [htgt, target_fold_mem]
    constructor
    · rintro (hx | ⟨g, hg, hgs, hx⟩)
      · exact hx
      · exfalso
        have : fileInfocode g = id := List.append_cancel_right hx.symm
        rw [this] at hgs
        exact hid hgs
    · exact Or.inl

/-- Claim C1 witness: two held files, one selected identifier. -/
theorem retention_resolver_totality_witness :
    (("r1".data ++ pdfExt) ∉
      (move_to_target ["r1".data] ⟨["r1.pdf".data, "r2.pdf".data], []⟩).1.holding) ∧
    ("r1".data ∈ ["r1".data] →
      ("r1".data ++ pdfExt) ∈
        (move_to_target ["r1".data] ⟨["r1.pdf".data, "r2.pdf".data], []⟩).1.target) ∧
    ("r1".data ∉ ["r1".data] →
      (("r1".data ++ pdfExt) ∈
          (move_to_target ["r1".data] ⟨["r1.pdf".data, "r2.pdf".data], []⟩).1.target
        ↔ ("r1".data ++ pdfExt) ∈ ([] : List Str))) :=
  retention_resolver_totality ["r1".data] ⟨["r1.pdf".data, "r2.pdf".data], []⟩ ("r1".data)
    (by decide) (by decide) (by decide)

/-- Claim C1 counterexample: the identifier `"a.pdf"` is in the selection
and its file `"a.pdf.pdf"` is in the holding directory, yet after
`move_to_target` the file has been deleted (holding empty, target empty),
not moved to the target directory as the claim requires: the code's
`replace(".pdf", "")` strips both occurrences and looks up `"a"` instead. -/
theorem retention_resolver_counterexample :
    ("a.pdf".data ∈ ["a.pdf".data]) ∧
    (("a.pdf".data ++ pdfExt) ∈ ["a.pdf.pdf".data]) ∧
    (move_to_target ["a.pdf".data] ⟨["a.pdf.pdf".data], []⟩).1.holding = [] ∧
    (move_to_target ["a.pdf".data] ⟨["a.pdf.pdf".data], []⟩).1.target = [] := by
  refine ⟨by decide, by decide, by decide, by decide⟩

/- ## Claim C2: degradation toward deletion -/

theorem target_fold_empty_sel :
    ∀ (files : List Str) (t : List Str),
      files.foldl
        (fun t2 f =>
          if fileInfocode f ∈ ([] : List Str) then insertFile t2 (fileInfocode f ++ pdfExt)
          else t2)
        t = t := by
  intro files
  induction files with
  | nil => intro t; rfl
  | cons f fs ih => intro t; rw [List.foldl_cons, if_neg (List.not_mem_nil _), ih]

/-- Claim C2 (amended): resolving with the empty selection keeps the
target directory untouched and removes every `.pdf` file from the holding
directory; the timed listener's timeout branch and the successful-send
demo path of `manual_crawl` both resolve exactly this way; but when the
send fails, `send_and_notify_reports` yields `none` and `manual_crawl`
skips resolution entirely, leaving the directories — unapproved files
included — exactly as they were. -/
theorem timeout_equivalence (dirs : PdfDirs) (nr : List Str) (sendOk : Bool)
    (hnd : dirs.holding.Nodup) :
    (sendOk = false → manual_crawl_resolution true true nr sendOk dirs = dirs) ∧
    (sendOk = true → nr ≠ [] →
      manual_crawl_resolution true true nr sendOk dirs = (move_to_target [] dirs).1) ∧
    (listener_timeout_resolution dirs = (move_to_target [] dirs).1) ∧
    ((move_to_target [] dirs).1.target = dirs.target) ∧
    (∀ f ∈ dirs.holding, pdfExt.isSuffixOf f = true →
      f ∉ (move_to_target [] dirs).1.holding) := by
  refine ⟨?_, ?_, rfl, ?_, ?_⟩
  · rintro rfl
    by_cases hnr : nr = [] <;> simp [manual_crawl_resolution, send_and_notify_reports, hnr]
  · rintro rfl hnr
    simp [manual_crawl_resolution, send_and_notify_reports, hnr]
  · rw [move_to_target, move_fold_target, target_fold_empty_sel]
  · intro f hf hsuf
    rw [move_to_target, move_fold_holding]
    exact erase_fold_not_mem _ dirs.holding hnd f (List.mem_filter.2 ⟨hf, hsuf⟩)

/-- Claim C2 witness at concrete directories and both send outcomes. -/
theorem timeout_equivalence_witness :
    (false = false →
      manual_crawl_resolution true true ["x".data] false ⟨["x.pdf".data], []⟩
        = ⟨["x.pdf".data], []⟩) ∧
    (false = true → ["x".data] ≠ [] →
      manual_crawl_resolution true true ["x".data] false ⟨["x.pdf".data], []⟩
        = (move_to_target [] ⟨["x.pdf".data], []⟩).1) ∧
    (listener_timeout_resolution ⟨["x.pdf".data], []⟩
      = (move_to_target [] ⟨["x.pdf".data], []⟩).1) ∧
    ((move_to_target [] ⟨["x.pdf".data], []⟩).1.target = ([] : List Str)) ∧
    (∀ f ∈ (⟨["x.pdf".data], []⟩ : PdfDirs).holding, pdfExt.isSuffixOf f = true →
      f ∉ (move_to_target [] ⟨["x.pdf".data], []⟩).1.holding) :=
  timeout_equivalence ⟨["x.pdf".data], []⟩ ["x".data] false (by decide)

/-- Claim C2 counterexample: with a failed send no reviewer selection
arrives, yet `manual_crawl` performs no resolution at all: the unapproved
file `"x.pdf"` stays in the holding directory, while resolving directly
with the empty selection would have deleted it — the placements differ. -/
theorem timeout_equivalence_counterexample :
    manual_crawl_resolution true true ["x".data] false ⟨["x.pdf".data], []⟩
      = ⟨["x.pdf".data], []⟩ ∧
    ("x.pdf".data ∈
      (manual_crawl_resolution true true ["x".data] false ⟨["x.pdf".data], []⟩).holding) ∧
    (move_to_target [] ⟨["x.pdf".data], []⟩).1.holding = [] := by
  refine ⟨by decide, by decide, by decide⟩

/- ## Claim C5: re-processing an already-completed report -/

/-- Claim C5 (amended): re-processing a record whose infocode already has
a stored row does attempt the attachment download again (the code never
consults the stored status), and the subsequent upsert rewrites exactly
`pdf_path` (to the deterministic save path), `download_status` (to
`"completed"`), `pdf_size`, `pdf_pages` and `update_time`, leaving every
other column — the descriptive metadata, `error_message`, `create_time` —
untouched; in particular, when the stored row was already `"completed"`
with the same path, size and page count, the row changes only in
`update_time`. -/
theorem reprocess_completed (store : List ReportRow) (rd : RawReport) (content : List Nat)
    (now : Nat) (hic : rd.infoCode ≠ []) (hattach : rd.attachType = "0".data)
    (hcontent : content ≠ [])
    (hexists : store.any (fun r => r.infocode = rd.infoCode) = true) :
    (process_and_store now store rd (.ok (some content))).2 = true ∧
    (process_and_store now store rd (.ok (some content))).1
      = store.map (fun r =>
          if r.infocode = rd.infoCode then
            { r with pdf_path := store_pdf rd.infoCode content pdfExt
                   , download_status := "completed".data
                   , pdf_size := rd.attachSize
                   , pdf_pages := rd.attachPages
                   , update_time := now }
          else r) ∧
    (∀ r : ReportRow, r.download_status = "completed".data →
      r.pdf_path = store_pdf rd.infoCode content pdfExt →
      r.pdf_size = rd.attachSize → r.pdf_pages = rd.attachPages →
      ({ r with pdf_path := store_pdf rd.infoCode content pdfExt
              , download_status := "completed".data
              , pdf_size := rd.attachSize
              , pdf_pages := rd.attachPages
              , update_time := now } : ReportRow) = { r with update_time := now }) := by
  have hpr : process_report rd (.ok (some content))
      = (some { base_db_item rd with
                pdf_path := some (store_pdf rd.infoCode content pdfExt)
              , download_status := some ("completed".data) }, true) := by
    simp [process_report, hic, hattach, hcontent]
  refine ⟨?_, ?_, ?_⟩
  · rw [process_and_store, hpr]
  · rw [process_and_store, hpr]
    simp only [store_content, base_db_item]
    rw [if_neg (by exact hic), if_pos (by exact hexists)]
    apply List.map_congr_left
    intro r hr
    by_cases h0 : r.infocode = rd.infoCode
    · rw [if_pos h0, if_pos h0]
      simp [update_report, base_db_item]
    · rw [if_neg h0, if_neg h0]
  · intro r h1 h2 h3 h4
    rw [← h1, ← h2, ← h3, ← h4]

/-- Claim C5 witness: a store with one completed row for the infocode,
re-observed with a successful download of the same content. -/
theorem reprocess_completed_witness :
    (process_and_store 2
      [add_report 1 { infocode := some ("X".data)
                    , pdf_path := some (store_pdf ("X".data) [7] pdfExt)
                    , download_status := some ("completed".data) }]
      { infoCode := "X".data, attachType := "0".data } (.ok (some [7]))).2 = true ∧
    (process_and_store 2
      [add_report 1 { infocode := some ("X".data)
                    , pdf_path := some (store_pdf ("X".data) [7] pdfExt)
                    , download_status := some ("completed".data) }]
      { infoCode := "X".data, attachType := "0".data } (.ok (some [7]))).1
      = [add_report 1 { infocode := some ("X".data)
                      , pdf_path := some (store_pdf ("X".data) [7] pdfExt)
                      , download_status := some ("completed".data) }].map (fun r =>
          if r.infocode = ({ infoCode := "X".data, attachType := "0".data } : RawReport).infoCode
          then
            { r with pdf_path := store_pdf ("X".data) [7] pdfExt
                   , download_status := "completed".data
                   , pdf_size := 0
                   , pdf_pages := 0
                   , update_time := 2 }
          else r) ∧
    (∀ r : ReportRow, r.download_status = "completed".data →
      r.pdf_path = store_pdf ("X".data) [7] pdfExt →
      r.pdf_size = 0 → r.pdf_pages = 0 →
      ({ r with pdf_path := store_pdf ("X".data) [7] pdfExt
              , download_status := "completed".data
              , pdf_size := 0
              , pdf_pages := 0
              , update_time := 2 } : ReportRow) = { r with update_time := 2 }) :=
  reprocess_completed
    [add_report 1 { infocode := some ("X".data)
                  , pdf_path := some (store_pdf ("X".data) [7] pdfExt)
                  , download_status := some ("completed".data) }]
    { infoCode := "X".data, attachType := "0".data } [7] 2
    (by decide) rfl (by decide) (by decide)

/-- Claim C5 counterexample: a store already holding a completed row for
the infocode, yet re-processing the identifier performs the download
again (the attempted flag is true), where the claim requires that no
second download happens. -/
theorem reprocess_completed_counterexample :
    ((add_report 1 { infocode := some ("X".data)
                   , download_status := some ("completed".data) }).download_status
      = "completed".data) ∧
    (process_and_store 2
      [add_report 1 { infocode := some ("X".data)
                    , download_status := some ("completed".data) }]
      { infoCode := "X".data, attachType := "0".data } (.ok (some [7]))).2 = true := by
  refine ⟨by decide, by decide⟩

/- ## Claims C3, C4: the selection grammar -/

/-- Splitting on both ASCII and full-width commas in one pass, as the
spec describes the grammar. -/
def splitOnCommas : Str → List Str
  | [] => [[]]
  | c :: rest =>
    match splitOnCommas rest with
    | [] => [[]]
    | t :: ts => if c = ',' ∨ c = '，' then [] :: t :: ts else (c :: t) :: ts

/-- A token that parses as a positive integer, per the spec's grammar:
after stripping, all digits with value at least 1. -/
def claimTokenValue (t : Str) : Option Nat :=
  let t2 := pyStrip t
  if pyIsDigit t2 ∧ 1 ≤ digitsToNat t2 then some (digitsToNat t2) else none

/-- The claim's description of the index grammar, without duplicate
removal: split on both commas, keep positive-integer tokens, drop values
beyond the list length, and map each value 1-based onto the identifiers. -/
def claimSelection (text : Str) (codes : List Str) : List Str :=
  let toks := splitOnCommas (pyLower (pyStrip text))
  let vals := toks.filterMap claimTokenValue
  let kept := vals.filter (fun v => v ≤ codes.length)
  kept.map (fun v => codes.getD (v - 1) [])

/-- Duplicate removal keeping first occurrences, used by the claim's
"drop duplicate indices" wording. -/
def dedupFirstAux (seen : List Nat) : List Nat → List Nat
  | [] => []
  | v :: rest =>
    if v ∈ seen then dedupFirstAux seen rest else v :: dedupFirstAux (v :: seen) rest

/-- The claim's selection grammar exactly as stated, duplicate indices
dropped. -/
def claimSelectionDedup (text : Str) (codes : List Str) : List Str :=
  let toks := splitOnCommas (pyLower (pyStrip text))
  let vals := toks.filterMap claimTokenValue
  let kept := dedupFirstAux [] (vals.filter (fun v => v ≤ codes.length))
  kept.map (fun v => codes.getD (v - 1) [])

theorem split_replace_eq (s : Str) :
    pySplit ',' (charReplace '，' ',' s) = splitOnCommas s := by
  induction s with
  | nil => rfl
  | cons c rest ih =>
    simp only [charReplace, List.map_cons] at ih ⊢
    rw [pySplit, splitOnCommas, ih]
    cases h : splitOnCommas rest with
    | nil => by_cases hc : c = ',' ∨ c = '，' <;> by_cases hc2 : c = '，' <;> simp_all
    | cons t ts =>
      by_cases hc2 : c = '，'
      · subst hc2
        simp
      · by_cases hc1 : c = ','
        · subst hc1
          simp
        · simp [hc1, hc2]

theorem botIndices_cons (p : Str) (ps : List Str) (n : Nat) :
    botIndices (p :: ps) n =
      if pyIsDigit (pyStrip p) then
        (if 0 ≤ (digitsToNat (pyStrip p) : Int) - 1
            ∧ (digitsToNat (pyStrip p) : Int) - 1 < (n : Int)
         then ((digitsToNat (pyStrip p) : Int) - 1).toNat :: botIndices ps n
         else botIndices ps n)
      else botIndices ps n := rfl

theorem botIndices_eq (parts : List Str) (n : Nat) :
    botIndices parts n
      = ((parts.filterMap claimTokenValue).filter (fun v => v ≤ n)).map (fun v => v - 1) := by
  induction parts with
  | nil => rfl
  | cons p ps ih =>
    rw [botIndices_cons, ih, List.filterMap_cons]
    by_cases h1 : pyIsDigit (pyStrip p) = true
    · by_cases h2 : 1 ≤ digitsToNat (pyStrip p)
      · have hv : claimTokenValue p = some (digitsToNat (pyStrip p)) := by
          simp only [claimTokenValue]
          rw [if_pos ⟨h1, h2⟩]
        rw [if_pos h1, hv, List.filter_cons]
        by_cases h3 : digitsToNat (pyStrip p) ≤ n
        · rw [if_pos (show decide (digitsToNat (pyStrip p) ≤ n) = true by simpa using h3)]
          rw [if_pos (show (0:Int) ≤ (digitsToNat (pyStrip p) : Int) - 1
              ∧ (digitsToNat (pyStrip p) : Int) - 1 < (n : Int) by omega)]
          rw [List.map_cons]
          congr 1
          omega
        · rw [if_neg (show ¬ decide (digitsToNat (pyStrip p) ≤ n) = true by simpa using h3)]
          rw [if_neg (show ¬ ((0:Int) ≤ (digitsToNat (pyStrip p) : Int) - 1
              ∧ (digitsToNat (pyStrip p) : Int) - 1 < (n : Int)) by omega)]
      · have hv : claimTokenValue p = none := by
          simp only [claimTokenValue]
          rw [if_neg (by tauto)]
        rw [if_pos h1, hv]
        rw [if_neg (show ¬ ((0:Int) ≤ (digitsToNat (pyStrip p) : Int) - 1
            ∧ (digitsToNat (pyStrip p) : Int) - 1 < (n : Int)) by omega)]
    · have hv : claimTokenValue p = none := by
        simp only [claimTokenValue]
        rw [if_neg (by tauto)]
      rw [if_neg h1, hv]

/-- Claim C3 (amended): for a reply that is none of the literal keep-all,
delete-all or cancel tokens, the bot's parser equals the spec's grammar
with the duplicate-dropping step removed: split on ASCII and full-width
commas, keep tokens that parse as positive integers, drop values outside
`[1, n]`, and map each value 1-based onto the identifiers, keeping
duplicates (so a repeated index yields a repeated identifier); when no
token parses as an integer the selection is empty. -/
theorem selection_grammar (text : Str) (codes : List Str)
    (hspecial : ∀ s ∈ (["全部保留".data, "all".data, "全部删除".data, "all delete".data,
        "delete all".data, "取消".data, "cancel".data] : List Str),
      pyLower (pyStrip text) ≠ s) :
    process_user_selection text codes = claimSelection text codes ∧
    ((splitOnCommas (pyLower (pyStrip text))).filterMap claimTokenValue = [] →
      process_user_selection text codes = []) := by
  have hA := hspecial ("全部保留".data) (by simp)
  have hB := hspecial ("all".data) (by simp)
  have hC := hspecial ("全部删除".data) (by simp)
  have hD := hspecial ("all delete".data) (by simp)
  have hE := hspecial ("delete all".data) (by simp)
  have hF := hspecial ("取消".data) (by simp)
  have hG := hspecial ("cancel".data) (by simp)
  have hmain : process_user_selection text codes = claimSelection text codes := by
    simp only [process_user_selection]
    rw [if_neg (by tauto), if_neg (by tauto), if_neg (by tauto)]
    simp only [claimSelection]
    rw [split_replace_eq, botIndices_eq, List.map_map]
    rfl
  refine ⟨hmain, ?_⟩
  intro hemp
  rw [hmain]
  simp only [claimSelection]
  rw [hemp]
  rfl

/-- Claim C3 witness at the spec's own example reply against three
offered identifiers. -/
theorem selection_grammar_witness :
    process_user_selection ("1,2,5".data) ["A".data, "B".data, "C".data]
      = claimSelection ("1,2,5".data) ["A".data, "B".data, "C".data] ∧
    ((splitOnCommas (pyLower (pyStrip ("1,2,5".data)))).filterMap claimTokenValue = [] →
      process_user_selection ("1,2,5".data) ["A".data, "B".data, "C".data] = []) :=
  selection_grammar ("1,2,5".data) ["A".data, "B".data, "C".data] (by decide)

/-- Claim C3 counterexample: the reply `"1,1,2"` against three offered
identifiers yields `["A","A","B"]` — the first identifier repeated — while
the claim's grammar with duplicate indices dropped yields `["A","B"]`:
the code drops no duplicates and repeats identifiers. -/
theorem selection_grammar_counterexample :
    process_user_selection ("1,1,2".data) ["A".data, "B".data, "C".data]
      = ["A".data, "A".data, "B".data] ∧
    claimSelectionDedup ("1,1,2".data) ["A".data, "B".data, "C".data]
      = ["A".data, "B".data] ∧
    (process_user_selection ("1,1,2".data) ["A".data, "B".data, "C".data]).count ("A".data)
      = 2 ∧
    process_user_selection ("1,1,2".data) ["A".data, "B".data, "C".data]
      ≠ claimSelectionDedup ("1,1,2".data) ["A".data, "B".data, "C".data] := by
  refine ⟨by decide, by decide, by decide, by decide⟩

/-- Claim C4 (amended): in the bot's parser only `"all"` and `"全部保留"`
keep everything, `"全部"` is unrecognized and falls through to index
parsing where it selects nothing, and each delete-all or cancel token
selects nothing; in the timed listener's parser all of `"all"`,
`"全部保留"`, `"全部"` yield the keep-all marker (mapped to every offered
identifier), its delete-all tokens yield the delete-all marker (mapped to
none), and `"cancel"` is unrecognized, yielding no selection at all. -/
theorem keepall_tokens (codes : List Str) (text : Str) :
    ((pyLower (pyStrip text) = "全部保留".data ∨ pyLower (pyStrip text) = "all".data) →
      process_user_selection text codes = codes) ∧
    (pyLower (pyStrip text) = "全部".data → process_user_selection text codes = []) ∧
    ((pyLower (pyStrip text) = "全部删除".data ∨ pyLower (pyStrip text) = "all delete".data ∨
      pyLower (pyStrip text) = "delete all".data) →
      process_user_selection text codes = []) ∧
    ((pyLower (pyStrip text) = "取消".data ∨ pyLower (pyStrip text) = "cancel".data) →
      process_user_selection text codes = []) ∧
    ((pyLower (pyStrip text) = "全部保留".data ∨ pyLower (pyStrip text) = "all".data ∨
      pyLower (pyStrip text) = "全部".data) →
      parse_user_selection text = some .selAll) ∧
    ((pyLower (pyStrip text) = "全部删除".data ∨ pyLower (pyStrip text) = "delete".data ∨
      pyLower (pyStrip text) = "delete all".data) →
      parse_user_selection text = some .selDeleteAll) ∧
    (pyLower (pyStrip text) = "cancel".data → parse_user_selection text = none) ∧
    (map_listener_selection .selAll codes = codes) ∧
    (map_listener_selection .selDeleteAll codes = []) := by
  refine ⟨?_, ?_, ?_, ?_, ?_, ?_, ?_, rfl, rfl⟩
  · intro h
    simp only [process_user_selection]
    rw [if_pos h]
  · intro h
    simp only [process_user_selection]
    rw [if_neg (by rw [h]; decide), if_neg (by rw [h]; decide), if_neg (by rw [h]; decide), h]
    have hh : pySplit ',' (charReplace '，' ',' ("全部".data)) = ["全部".data] := by decide
    rw [hh, botIndices_cons, if_neg (by decide)]
    rfl
  · intro h
    simp only [process_user_selection]
    rw [if_neg ?_, if_pos ?_]
    · rcases h with h | h | h <;> rw [h] <;> decide
    · rcases h with h | h | h <;> rw [h] <;> decide
  · intro h
    simp only [process_user_selection]
    rw [if_neg ?_, if_neg ?_, if_pos ?_]
    · rcases h with h | h <;> rw [h] <;> decide
    · rcases h with h | h <;> rw [h] <;> decide
    · rcases h with h | h <;> rw [h] <;> decide
  · intro h
    simp only [parse_user_selection]
    rw [if_pos ?_]
    rcases h with h | h | h <;> rw [h] <;> decide
  · intro h
    simp only [parse_user_selection]
    rw [if_neg ?_, if_pos ?_]
    · rcases h with h | h | h <;> rw [h] <;> decide
    · rcases h with h | h | h <;> rw [h] <;> decide
  · intro h
    simp only [parse_user_selection]
    rw [if_neg (by rw [h]; decide), if_neg (by rw [h]; decide), h]
    decide

/-- Claim C4 witness at concrete replies and one offered identifier. -/
theorem keepall_tokens_witness :
    process_user_selection ("all".data) ["A".data] = ["A".data] ∧
    process_user_selection ("全部".data) ["A".data] = [] ∧
    process_user_selection ("delete all".data) ["A".data] = [] ∧
    process_user_selection ("cancel".data) ["A".data] = [] ∧
    parse_user_selection ("全部".data) = some .selAll ∧
    parse_user_selection ("delete all".data) = some .selDeleteAll ∧
    parse_user_selection ("cancel".data) = none ∧
    map_listener_selection .selAll ["A".data] = ["A".data] ∧
    map_listener_selection .selDeleteAll ["A".data] = [] :=
  ⟨(keepall_tokens ["A".data] ("all".data)).1 (by decide),
   (keepall_tokens ["A".data] ("全部".data)).2.1 (by decide),
   (keepall_tokens ["A".data] ("delete all".data)).2.2.1 (by decide),
   (keepall_tokens ["A".data] ("cancel".data)).2.2.2.1 (by decide),
   (keepall_tokens ["A".data] ("全部".data)).2.2.2.2.1 (by decide),
   (keepall_tokens ["A".data] ("delete all".data)).2.2.2.2.2.1 (by decide),
   (keepall_tokens ["A".data] ("cancel".data)).2.2.2.2.2.2.1 (by decide),
   (keepall_tokens ["A".data] ("x".data)).2.2.2.2.2.2.2.1,
   (keepall_tokens ["A".data] ("x".data)).2.2.2.2.2.2.2.2⟩

/-- Claim C4 counterexample: the keep-all token `"全部"` against one
offered identifier selects nothing in the bot's parser, not the full set
the claim requires. -/
theorem keepall_tokens_counterexample :
    process_user_selection ("全部".data) ["A".data] = [] ∧
    ([] : List Str) ≠ ["A".data] := by
  refine ⟨by decide, by decide⟩

/- ## Scan lemmas for claim C6 -/

theorem braceBal_nil : braceBal [] = 0 := rfl

theorem braceBal_cons (c : Char) (l : Str) :
    braceBal (c :: l)
      = (if c = '{' then 1 else if c = '}' then -1 else 0) + braceBal l := by
  by_cases h1 : c = '{'
  · subst h1
    simp [braceBal, List.count_cons]
    omega
  · by_cases h2 : c = '}'
    · subst h2
      simp [braceBal, List.count_cons, h1]
      omega
    · simp [braceBal, List.count_cons, h1, h2]

theorem scanToClose_iff (l : Str) : ∀ (d : Int), 1 ≤ d → ∀ sub : Str,
    (scanToClose d l = some sub ↔
      (sub <+: l ∧ sub ≠ [] ∧ d + braceBal sub = 0 ∧
        ∀ p ∈ sub.inits, p ≠ sub → 0 < d + braceBal p)) := by
  induction l with
  | nil =>
    intro d hd sub
    constructor
    · intro h
      simp [scanToClose] at h
    · rintro ⟨hp, hne, -, -⟩
      exact absurd (List.prefix_nil.1 hp) hne
  | cons c rest ih =>
    intro d hd sub
    by_cases hc1 : c = '{'
    · subst hc1
      rw [scanToClose, if_pos rfl]
      constructor
      · intro h
        obtain ⟨sub2, h2, rfl⟩ := Option.map_eq_some'.1 h
        obtain ⟨hp2, hne2, hbal2, hpre2⟩ := (ih (d + 1) (by omega) sub2).1 h2
        refine ⟨List.cons_prefix_cons.2 ⟨rfl, hp2⟩, by simp, ?_, ?_⟩
        · rw [braceBal_cons, if_pos rfl]
          omega
        · intro p hp hpne
          rw [List.inits_cons] at hp
          rcases List.mem_cons.1 hp with rfl | hp
          · rw [braceBal_nil]
            omega
          · obtain ⟨q, hq, rfl⟩ := List.mem_map.1 hp
            have := hpre2 q hq (by intro hqq; apply hpne; rw [hqq])
            rw [braceBal_cons, if_pos rfl]
            omega
      · rintro ⟨hp, hne, hbal, hpre⟩
        cases sub with
        | nil => exact absurd rfl hne
        | cons c2 sub2 =>
          obtain ⟨rfl, hp2⟩ := List.cons_prefix_cons.1 hp
          rw [braceBal_cons, if_pos rfl] at hbal
          have hne2 : sub2 ≠ [] := by
            rintro rfl
            rw [braceBal_nil] at hbal
            omega
          have hpre2 : ∀ q ∈ sub2.inits, q ≠ sub2 → 0 < (d + 1) + braceBal q := by
            intro q hq hqne
            have hmem : ('{' :: q) ∈ ('{' :: sub2).inits := by
              rw [List.inits_cons]
              exact List.mem_cons_of_mem _ (List.mem_map_of_mem _ hq)
            have := hpre ('{' :: q) hmem (by simpa using hqne)
            rw [braceBal_cons, if_pos rfl] at this
            omega
          rw [(ih (d + 1) (by omega) sub2).2 ⟨hp2, hne2, by omega, hpre2⟩]
          rfl
    · by_cases hc2 : c = '}'
      · subst hc2
        rw [scanToClose, if_neg (by decide), if_pos rfl]
        by_cases hd1 : d - 1 = 0
        · rw [if_pos hd1]
          constructor
          · intro h
            obtain rfl : (['}'] : Str) = sub := by
              injection h
            refine ⟨List.cons_prefix_cons.2 ⟨rfl, List.nil_prefix⟩, by simp, ?_, ?_⟩
            · rw [braceBal_cons, if_neg (by decide), if_pos rfl, braceBal_nil]
              omega
            · intro p hp hpne
              rw [List.inits_cons] at hp
              rcases List.mem_cons.1 hp with rfl | hp
              · rw [braceBal_nil]
                omega
              · obtain ⟨q, hq, rfl⟩ := List.mem_map.1 hp
                have hq0 : q = [] := List.prefix_nil.1 ((List.mem_inits q []).1 hq)
                subst hq0
                exact absurd rfl hpne
          · rintro ⟨hp, hne, hbal, hpre⟩
            cases sub with
            | nil => exact absurd rfl hne
            | cons c2 sub2 =>
              obtain ⟨rfl, hp2⟩ := List.cons_prefix_cons.1 hp
              have h0 : sub2 = [] := by
                by_contra hne2
                have hmem : (['}'] : Str) ∈ ('}' :: sub2).inits := by
                  rw [List.inits_cons]
                  exact List.mem_cons_of_mem _
                    (List.mem_map_of_mem _ ((List.mem_inits [] sub2).2 List.nil_prefix))
                have := hpre ['}'] hmem (by simpa using (Ne.symm (by simpa using hne2)))
                rw [braceBal_cons, if_neg (by decide), if_pos rfl, braceBal_nil] at this
                omega
              subst h0
              rfl
        · rw [if_neg hd1]
          have hd2 : 1 ≤ d - 1 := by omega
          constructor
          · intro h
            obtain ⟨sub2, h2, rfl⟩ := Option.map_eq_some'.1 h
            obtain ⟨hp2, hne2, hbal2, hpre2⟩ := (ih (d - 1) hd2 sub2).1 h2
            refine ⟨List.cons_prefix_cons.2 ⟨rfl, hp2⟩, by simp, ?_, ?_⟩
            · rw [braceBal_cons, if_neg (by decide), if_pos rfl]
              omega
            · intro p hp hpne
              rw [List.inits_cons] at hp
              rcases List.mem_cons.1 hp with rfl | hp
              · rw [braceBal_nil]
                omega
              · obtain ⟨q, hq, rfl⟩ := List.mem_map.1 hp
                have := hpre2 q hq (by intro hqq; apply hpne; rw [hqq])
                rw [braceBal_cons, if_neg (by decide), if_pos rfl]
                omega
          · rintro ⟨hp, hne, hbal, hpre⟩
            cases sub with
            | nil => exact absurd rfl hne
            | cons c2 sub2 =>
              obtain ⟨rfl, hp2⟩ := List.cons_prefix_cons.1 hp
              rw [braceBal_cons, if_neg (by decide), if_pos rfl] at hbal
              have hne2 : sub2 ≠ [] := by
                rintro rfl
                rw [braceBal_nil] at hbal
                omega
              have hpre2 : ∀ q ∈ sub2.inits, q ≠ sub2 → 0 < (d - 1) + braceBal q := by
                intro q hq hqne
                have hmem : ('}' :: q) ∈ ('}' :: sub2).inits := by
                  rw [List.inits_cons]
                  exact List.mem_cons_of_mem _ (List.mem_map_of_mem _ hq)
                have := hpre ('}' :: q) hmem (by simpa using hqne)
                rw [braceBal_cons, if_neg (by decide), if_pos rfl] at this
                omega
              rw [(ih (d - 1) hd2 sub2).2 ⟨hp2, hne2, by omega, hpre2⟩]
              rfl
      · rw [scanToClose, if_neg hc1, if_neg hc2]
        constructor
        · intro h
          obtain ⟨sub2, h2, rfl⟩ := Option.map_eq_some'.1 h
          obtain ⟨hp2, hne2, hbal2, hpre2⟩ := (ih d hd sub2).1 h2
          refine ⟨List.cons_prefix_cons.2 ⟨rfl, hp2⟩, by simp, ?_, ?_⟩
          · rw [braceBal_cons, if_neg hc1, if_neg hc2]
            omega
          · intro p hp hpne
            rw [List.inits_cons] at hp
            rcases List.mem_cons.1 hp with rfl | hp
            · rw [braceBal_nil]
              omega
            · obtain ⟨q, hq, rfl⟩ := List.mem_map.1 hp
              have := hpre2 q hq (by intro hqq; apply hpne; rw [hqq])
              rw [braceBal_cons, if_neg hc1, if_neg hc2]
              omega
        · rintro ⟨hp, hne, hbal, hpre⟩
          cases sub with
          | nil => exact absurd rfl hne
          | cons c2 sub2 =>
            obtain ⟨rfl, hp2⟩ := List.cons_prefix_cons.1 hp
            rw [braceBal_cons, if_neg hc1, if_neg hc2] at hbal
            have hne2 : sub2 ≠ [] := by
              rintro rfl
              rw [braceBal_nil] at hbal
              omega
            have hpre2 : ∀ q ∈ sub2.inits, q ≠ sub2 → 0 < d + braceBal q := by
              intro q hq hqne
              have hmem : (c2 :: q) ∈ (c2 :: sub2).inits := by
                rw [List.inits_cons]
                exact List.mem_cons_of_mem _ (List.mem_map_of_mem _ hq)
              have := hpre (c2 :: q) hmem (by simpa using hqne)
              rw [braceBal_cons, if_neg hc1, if_neg hc2] at this
              omega
            rw [(ih d hd sub2).2 ⟨hp2, hne2, by omega, hpre2⟩]
            rfl

theorem scanToClose_entry (rest : Str) (sub : Str) :
    scanToClose 0 ('{' :: rest) = some sub
      ↔ (sub <+: ('{' :: rest) ∧ BalancedExtract sub) := by
  rw [scanToClose, if_pos rfl]
  constructor
  · intro h
    obtain ⟨sub2, h2, rfl⟩ := Option.map_eq_some'.1 h
    obtain ⟨hp2, hne2, hbal2, hpre2⟩ := (scanToClose_iff rest 1 (by omega) sub2).1 h2
    refine ⟨List.cons_prefix_cons.2 ⟨rfl, hp2⟩, rfl, ?_, ?_⟩
    · rw [braceBal_cons, if_pos rfl]
      omega
    · intro p hp hpne hpsub
      rw [List.inits_cons] at hp
      rcases List.mem_cons.1 hp with rfl | hp
      · exact absurd rfl hpne
      · obtain ⟨q, hq, rfl⟩ := List.mem_map.1 hp
        have := hpre2 q hq (by intro hqq; apply hpsub; rw [hqq])
        rw [braceBal_cons, if_pos rfl]
        omega
  · rintro ⟨hp, hhead, hbal, hpre⟩
    cases sub with
    | nil => cases hhead
    | cons c2 sub2 =>
      have hc2 : c2 = '{' := by simpa using hhead
      subst hc2
      obtain ⟨-, hp2⟩ := List.cons_prefix_cons.1 hp
      rw [braceBal_cons, if_pos rfl] at hbal
      have hne2 : sub2 ≠ [] := by
        rintro rfl
        rw [braceBal_nil] at hbal
        omega
      have hpre2 : ∀ q ∈ sub2.inits, q ≠ sub2 → 0 < 1 + braceBal q := by
        intro q hq hqne
        have hmem : ('{' :: q) ∈ ('{' :: sub2).inits := by
          rw [List.inits_cons]
          exact List.mem_cons_of_mem _ (List.mem_map_of_mem _ hq)
        have := hpre ('{' :: q) hmem (by simp) (by simpa using hqne)
        rw [braceBal_cons, if_pos rfl] at this
        omega
      rw [show (0 : Int) + 1 = 1 by norm_num,
        (scanToClose_iff rest 1 (by omega) sub2).2 ⟨hp2, hne2, by omega, hpre2⟩]
      rfl

theorem dropWhile_not_brace (pre rest : Str) (hpre : '{' ∉ pre) :
    (pre ++ rest).dropWhile (fun c => c ≠ '{') = rest.dropWhile (fun c => c ≠ '{') := by
  induction pre with
  | nil => rfl
  | cons c cs ih =>
    have hc : c ≠ '{' := fun h => hpre (h ▸ List.mem_cons_self c cs)
    rw [List.cons_append, List.dropWhile_cons_of_pos (by simpa using hc)]
    exact ih (fun h => hpre (List.mem_cons_of_mem c h))

theorem dropWhile_head_brace (sub post : Str) (hhead : sub.head? = some '{') :
    (sub ++ post).dropWhile (fun c => c ≠ '{') = sub ++ post := by
  cases sub with
  | nil => cases hhead
  | cons c2 sub2 =>
    have hc2 : c2 = '{' := by simpa using hhead
    subst hc2
    rw [List.cons_append, List.dropWhile_cons_of_neg (by simp)]

theorem findOpenBrace_decomp (pre sub post : Str) (hpre : '{' ∉ pre)
    (hhead : sub.head? = some '{') :
    findOpenBrace (pre ++ sub ++ post) = some (sub ++ post) := by
  have hsub : '{' ∈ sub := by
    cases sub with
    | nil => cases hhead
    | cons c2 sub2 =>
      have hc2 : c2 = '{' := by simpa using hhead
      subst hc2
      exact List.mem_cons_self _ _
  have hmem : '{' ∈ pre ++ sub ++ post := by
    rw [List.append_assoc]
    exact List.mem_append.2 (Or.inr (List.mem_append.2 (Or.inl hsub)))
  rw [findOpenBrace, if_pos hmem, List.append_assoc, dropWhile_not_brace pre _ hpre,
    dropWhile_head_brace sub post hhead]

theorem dropWhile_brace_head (s : Str) (hmem : '{' ∈ s) :
    (s.dropWhile (fun c => c ≠ '{')).head? = some '{' := by
  induction s with
  | nil => cases hmem
  | cons c cs ih =>
    by_cases hc : c = '{'
    · subst hc
      rw [List.dropWhile_cons_of_neg (by simp)]
      rfl
    · rw [List.dropWhile_cons_of_pos (by simpa using hc)]
      refine ih ?_
      rcases List.mem_cons.1 hmem with h | h
      · exact absurd h.symm hc
      · exact h

theorem parse_jsonp_some {α : Type} (loads : Str → Option α) (s tail : Str)
    (h : findOpenBrace s = some tail) :
    parse_jsonp_response loads s
      = (match scanToClose 0 tail with
         | none => .error .noEnd
         | some sub =>
           match loads sub with
           | some v => .ok v
           | none => .error .decodeFailed) := by
  rw [parse_jsonp_response, h]

theorem parse_jsonp_scan_some {α : Type} (loads : Str → Option α) (s tail sub : Str)
    (h1 : findOpenBrace s = some tail) (h2 : scanToClose 0 tail = some sub) :
    parse_jsonp_response loads s
      = (match loads sub with
         | some v => .ok v
         | none => .error .decodeFailed) := by
  rw [parse_jsonp_some loads s tail h1, h2]

/-- Claim C6: the callback-envelope unwrapper of `_parse_jsonp_response`
(over any JSON decoder `loads`): a body with no opening brace fails with
the no-start error; a body splitting as `pre ++ sub ++ post` where `pre`
has no opening brace and `sub` is the balanced-brace extract starting at
the first opening brace yields exactly `loads sub` on success and the
decode error when `loads` rejects `sub`; a body whose tail from the first
opening brace has no balanced prefix fails with the no-end error; and
every successful parse comes from such a decomposition. -/
theorem jsonp_parse {α : Type} (loads : Str → Option α) (s pre sub post : Str) :
    ('{' ∉ s → parse_jsonp_response loads s = .error .noStart) ∧
    (s = pre ++ sub ++ post → '{' ∉ pre → BalancedExtract sub →
      parse_jsonp_response loads s
        = (match loads sub with
           | some v => .ok v
           | none => .error .decodeFailed)) ∧
    ('{' ∈ s → (∀ sub2 ∈ (s.dropWhile (fun c => c ≠ '{')).inits, ¬ BalancedExtract sub2) →
      parse_jsonp_response loads s = .error .noEnd) ∧
    (∀ v, parse_jsonp_response loads s = .ok v →
      ∃ pre2 sub2 post2, s = pre2 ++ sub2 ++ post2 ∧ '{' ∉ pre2 ∧ BalancedExtract sub2 ∧
        loads sub2 = some v) := by
  refine ⟨?_, ?_, ?_, ?_⟩
  · intro h
    rw [parse_jsonp_response, findOpenBrace, if_neg h]
  · rintro rfl hpre hbal
    obtain ⟨sub2, rfl⟩ : ∃ t, sub = '{' :: t := by
      cases sub with
      | nil => cases hbal.1
      | cons c2 t =>
        have hc2 : c2 = '{' := by simpa using hbal.1
        subst hc2
        exact ⟨t, rfl⟩
    have hscan : scanToClose 0 (('{' :: sub2) ++ post) = some ('{' :: sub2) := by
      rw [List.cons_append]
      exact (scanToClose_entry (sub2 ++ post) ('{' :: sub2)).2
        ⟨List.cons_prefix_cons.2 ⟨rfl, List.prefix_append sub2 post⟩, hbal⟩
    exact parse_jsonp_scan_some loads _ _ _
      (findOpenBrace_decomp pre ('{' :: sub2) post hpre hbal.1) hscan
  · intro hmem hnone
    have hhead := dropWhile_brace_head s hmem
    obtain ⟨rest2, heq⟩ : ∃ t, s.dropWhile (fun c => c ≠ '{') = '{' :: t := by
      cases hd : s.dropWhile (fun c => c ≠ '{') with
      | nil => rw [hd] at hhead; cases hhead
      | cons c2 t =>
        rw [hd] at hhead
        have hc2 : c2 = '{' := by simpa using hhead
        subst hc2
        exact ⟨t, rfl⟩
    have hfind : findOpenBrace s = some ('{' :: rest2) := by
      rw [findOpenBrace, if_pos hmem, heq]
    cases hscan : scanToClose 0 ('{' :: rest2) with
    | none => rw [parse_jsonp_some loads s _ hfind, hscan]
    | some sub2 =>
      exfalso
      obtain ⟨hp2, hbal2⟩ := (scanToClose_entry rest2 sub2).1 hscan
      exact hnone sub2 (by rw [heq]; exact (List.mem_inits _ _).2 hp2) hbal2
  · intro v hv
    cases hfind : findOpenBrace s with
    | none =>
      rw [parse_jsonp_response, hfind] at hv
      cases hv
    | some tail =>
      have hmem : '{' ∈ s := by
        by_contra hmem2
        rw [findOpenBrace, if_neg hmem2] at hfind
        cases hfind
      have htail : tail = s.dropWhile (fun c => c ≠ '{') := by
        rw [findOpenBrace, if_pos hmem] at hfind
        injection hfind with h2
        exact h2.symm
      cases hscan : scanToClose 0 tail with
      | none =>
        rw [parse_jsonp_some loads s tail hfind, hscan] at hv
        cases hv
      | some sub2 =>
        rw [parse_jsonp_scan_some loads s tail sub2 hfind hscan] at hv
        cases hload : loads sub2 with
        | none =>
          rw [hload] at hv
          cases hv
        | some v2 =>
          rw [hload] at hv
          have hvv : v2 = v := by injection hv
          subst hvv
          have hhead := dropWhile_brace_head s hmem
          obtain ⟨rest2, heq⟩ : ∃ t, tail = '{' :: t := by
            rw [htail]
            cases hd : s.dropWhile (fun c => c ≠ '{') with
            | nil => rw [hd] at hhead; cases hhead
            | cons c2 t =>
              rw [hd] at hhead
              have hc2 : c2 = '{' := by simpa using hhead
              subst hc2
              exact ⟨t, rfl⟩
          obtain ⟨hp2, hbal2⟩ := (scanToClose_entry rest2 sub2).1 (by rw [← heq]; exact hscan)
          obtain ⟨post2, hpost⟩ := hp2
          refine ⟨s.takeWhile (fun c => c ≠ '{'), sub2, post2, ?_, ?_, hbal2, hload⟩
          · rw [List.append_assoc, hpost, ← heq, htail, List.takeWhile_append_dropWhile]
          · intro hcontra
            have := List.mem_takeWhile_imp hcontra
            simp at this

/-- A concrete decoder for the claim C6 witness: accepts exactly the
two-character balanced body. -/
def exLoads : Str → Option Nat := fun l => if l = ['{', '}'] then some 1 else none

/-- Claim C6 witness: a concrete envelope `dt({})`, a body with no
opening brace, and a body with an unclosed brace. -/
theorem jsonp_parse_witness :
    (parse_jsonp_response exLoads ("abc".data) = .error .noStart) ∧
    (parse_jsonp_response exLoads (['d', 't', '('] ++ ['{', '}'] ++ [')'])
      = (match exLoads ['{', '}'] with
         | some v => .ok v
         | none => .error .decodeFailed)) ∧
    (parse_jsonp_response exLoads ['(', '{'] = .error .noEnd) ∧
    (∃ pre2 sub2 post2,
      (['d', 't', '('] ++ ['{', '}'] ++ [')'] : Str) = pre2 ++ sub2 ++ post2 ∧
      '{' ∉ pre2 ∧ BalancedExtract sub2 ∧ exLoads sub2 = some 1) :=
  ⟨(jsonp_parse exLoads ("abc".data) [] [] []).1 (by decide),
   (jsonp_parse exLoads (['d', 't', '('] ++ ['{', '}'] ++ [')'])
       ['d', 't', '('] ['{', '}'] [')']).2.1 rfl (by decide) (by decide),
   (jsonp_parse exLoads ['(', '{'] [] [] []).2.2.1 (by decide) (by decide),
   (jsonp_parse exLoads (['d', 't', '('] ++ ['{', '}'] ++ [')']) [] [] []).2.2.2 1 (by rfl)⟩
